import Mathlib

/-!
# Status-resolution engine of the `in-or-out` team status board

A shallow embedding of the status-resolution logic of the repository:

* `src/pages/Index.tsx` — `loadEmployees`, `applyRecurringStatuses`,
  `applyScheduledStatuses`, and the realtime-subscription handler;
* `src/pages/EmployeeProfile.tsx` — `handleAddScheduledStatus` and the
  calendar `disabled` predicate;
* the `supabase` migrations — row shapes of `employees`,
  `recurring_statuses` and `scheduled_statuses`.

Modelling conventions:

* Calendar dates are day numbers (`Nat`); the store compares `scheduled_date`
  with `eq`/`lt`, and ISO `yyyy-MM-dd` string order coincides with day order,
  so `=`/`<` on day numbers is a faithful translation.
* Day-of-week is a `Nat` (JS convention `0 = Sunday .. 6 = Saturday`).
* Each table is a `List` of rows in insertion (`created_at`) order; a select
  ordered by `created_at` is the filtered list in that order.
* The happy path of every store call is modelled; the surrounding
  `try/catch` blocks only log and are irrelevant to the claims below.
-/

/-- A row of the `employees` table (migrations: base table plus the
`already_applied boolean DEFAULT false`, `applied_date date` and
`recurring_enabled BOOLEAN DEFAULT false` columns). -/
structure Employee where
  id : String
  tenantId : String
  name : String
  status : String
  recurringEnabled : Bool
  alreadyApplied : Bool
  appliedDate : Option Nat
  deriving Repr, DecidableEq

/-- A row of the `recurring_statuses` table
(`UNIQUE(employee_id, day_of_week)` in the schema; the uniqueness is an
assumption on stores, not baked into the type). -/
structure RecurringStatus where
  id : String
  employeeId : String
  tenantId : String
  dayOfWeek : Nat
  statusText : String
  deriving Repr, DecidableEq

/-- A row of the `scheduled_statuses` table.  The schema has exactly the
columns `id, employee_id, tenant_id, scheduled_date, status_text,
created_at`; there is no override-level applied-marker column. -/
structure ScheduledStatus where
  id : String
  employeeId : String
  tenantId : String
  scheduledDate : Nat
  statusText : String
  deriving Repr, DecidableEq

/-- The persistent store: the three tables the resolver touches. -/
structure Store where
  employees : List Employee
  recurringStatuses : List RecurringStatus
  scheduledStatuses : List ScheduledStatus
  deriving Repr, DecidableEq

/-- The per-row effect of the employee update issued by both passes:
`update({status, already_applied: true, applied_date: today}).eq('id', eid)`
touches exactly the rows whose `id` equals the given employee id. -/
def markEmp (employeeId statusText : String) (today : Nat) (e : Employee) :
    Employee :=
  if e.id == employeeId then
    { e with status := statusText, alreadyApplied := true,
             appliedDate := some today }
  else e

/-- The employee update issued by both passes (Index.tsx lines 152-159 and
204-211). -/
def updateEmployeeStatusMarked (employeeId statusText : String) (today : Nat)
    (s : Store) : Store :=
  { s with employees := s.employees.map (markEmp employeeId statusText today) }

/-- The select `from('scheduled_statuses').eq('tenant_id', tid)
.eq('scheduled_date', today).in('employee_id', employeeIds)` issued by both
passes (Index.tsx lines 140-145 and 192-197). -/
def schedTodayRows (tid : String) (employeeIds : List String) (today : Nat)
    (rows : List ScheduledStatus) : List ScheduledStatus :=
  rows.filter fun r =>
    r.tenantId == tid && r.scheduledDate == today
      && employeeIds.contains r.employeeId

/-- The select `from('recurring_statuses').eq('tenant_id', tid)
.eq('day_of_week', w).in('employee_id', employeeIds)`
(Index.tsx lines 181-186). -/
def recurTodayRows (tid : String) (employeeIds : List String) (w : Nat)
    (rows : List RecurringStatus) : List RecurringStatus :=
  rows.filter fun r =>
    r.tenantId == tid && r.dayOfWeek == w && employeeIds.contains r.employeeId

/-- `applyScheduledStatuses` (Index.tsx lines 135-172): select the tenant's
`scheduled_statuses` rows dated exactly `today` for the given employee ids;
if none, return early; otherwise write each row's text to its employee and
mark it, then delete the tenant's rows dated strictly before `today`. -/
def applyScheduledStatuses (tid : String) (employeeIds : List String)
    (today : Nat) (s : Store) : Store :=
  let scheduledStatuses := schedTodayRows tid employeeIds today s.scheduledStatuses
  if scheduledStatuses.isEmpty then s
  else
    let s1 := scheduledStatuses.foldl
      (fun st row => updateEmployeeStatusMarked row.employeeId row.statusText today st) s
    { s1 with scheduledStatuses := s1.scheduledStatuses.filter fun r =>
        !(r.tenantId == tid && decide (r.scheduledDate < today)) }

/-- `applyRecurringStatuses` (Index.tsx lines 174-218): select the tenant's
`recurring_statuses` rows for the current day-of-week (`w`, read from a
second `new Date()` call in the source) restricted to the given employee
ids; if none, return early; otherwise collect the employee ids having a
`scheduled_statuses` row dated `today`, and write each recurring row's text
(with markers) to its employee unless that employee has such a row.
Note: the source never filters on `recurring_enabled` here. -/
def applyRecurringStatuses (tid : String) (employeeIds : List String)
    (today w : Nat) (s : Store) : Store :=
  let recurringStatuses := recurTodayRows tid employeeIds w s.recurringStatuses
  if recurringStatuses.isEmpty then s
  else
    let scheduledTodayIds :=
      (schedTodayRows tid employeeIds today s.scheduledStatuses).map (·.employeeId)
    recurringStatuses.foldl
      (fun st row =>
        if scheduledTodayIds.contains row.employeeId then st
        else updateEmployeeStatusMarked row.employeeId row.statusText today st) s

/-- The candidate filter of `loadEmployees` (Index.tsx lines 104-106):
`!emp.already_applied || emp.applied_date !== today`. -/
def isCandidate (today : Nat) (e : Employee) : Bool :=
  !e.alreadyApplied || e.appliedDate != some today

/-- The candidate set of one invocation: the tenant's employees that pass
`isCandidate` (Index.tsx lines 97-106). -/
def employeesToProcess (tid : String) (today : Nat) (s : Store) :
    List Employee :=
  (s.employees.filter fun e => e.tenantId == tid).filter (isCandidate today)

/-- `loadEmployees` (Index.tsx lines 89-133), the resolver entry point.
`today` is the calendar date from the first clock read (line 94); `w` is
the day-of-week from the second clock read inside `applyRecurringStatuses`
(line 178).  Returns the final store and the reselected tenant roster. -/
def loadEmployees (tid : String) (today w : Nat) (s : Store) :
    Store × List Employee :=
  let toProcess := employeesToProcess tid today s
  let s1 :=
    if toProcess.isEmpty then s
    else
      let ids := toProcess.map (·.id)
      applyScheduledStatuses tid ids today
        (applyRecurringStatuses tid ids today w s)
  (s1, s1.employees.filter fun e => e.tenantId == tid)

/-- The store state after one resolver invocation. -/
def resolveStore (tid : String) (today w : Nat) (s : Store) : Store :=
  (loadEmployees tid today w s).1

/-- The realtime-subscription handler (Index.tsx lines 55-87): on a pushed
employee-change event it only reselects the tenant's employees ordered by
`created_at` and replaces the displayed list; it issues no other store
operation. -/
def handleEmployeesChange (tid : String) (s : Store) :
    Store × List Employee :=
  (s, s.employees.filter fun e => e.tenantId == tid)

/-- A clock reading at timestamp `t` (day granularity) yields the
day-of-week of that day. -/
def dayOfWeekOf (t : Nat) : Nat := t % 7

/-- The resolver as the source runs it, with its two independent clock
reads: the date comes from a `new Date()` at time `t1` (Index.tsx line 94)
and the day-of-week from a second `new Date()` at time `t2`
(Index.tsx line 178). -/
def loadEmployeesTwoReads (tid : String) (t1 t2 : Nat) (s : Store) :
    Store × List Employee :=
  loadEmployees tid t1 (dayOfWeekOf t2) s

/-- The reference resolver of the spec (§4.4, §6 Clock): a single clock
read at time `t` supplies both the calendar date and the day-of-week,
shared by all passes. -/
def loadEmployeesSingleRead (tid : String) (t : Nat) (s : Store) :
    Store × List Employee :=
  loadEmployees tid t (dayOfWeekOf t) s

/-- The error message of `handleAddScheduledStatus`
(EmployeeProfile.tsx line 255). -/
def addScheduledError : String := "Please select a date and enter a status"

/-- JS `String.prototype.trim`: strip whitespace from both ends
(executable over the character list, unlike `String.trim`, whose byte-level
implementation does not reduce in the kernel). -/
def jsTrim (s : String) : String :=
  ⟨((s.data.dropWhile Char.isWhitespace).reverse.dropWhile
      Char.isWhitespace).reverse⟩

/-- `handleAddScheduledStatus` (EmployeeProfile.tsx lines 253-279): reject
with an immediate error when no date is selected or the status text trims
to empty (`!newScheduledDate || !newScheduledStatus.trim()`); otherwise
insert the row (trimmed text, formatted date) into `scheduled_statuses`.
`newId` stands for the store-generated row id.  Returns the store and the
surfaced error, if any. -/
def handleAddScheduledStatus (employeeId tid newId : String)
    (newScheduledDate : Option Nat) (newScheduledStatus : String)
    (s : Store) : Store × Option String :=
  match newScheduledDate with
  | none => (s, some addScheduledError)
  | some d =>
    if jsTrim newScheduledStatus == "" then (s, some addScheduledError)
    else
      ({ s with scheduledStatuses := s.scheduledStatuses ++
          [⟨newId, employeeId, tid, d, jsTrim newScheduledStatus⟩] }, none)

/-- The `disabled` predicate of the schedule-date calendar
(EmployeeProfile.tsx line 518):
`(date) => date < new Date(new Date().setHours(0, 0, 0, 0))`, i.e. a
candidate date is disabled exactly when it lies strictly before the
current day. -/
def calendarDateDisabled (today d : Nat) : Bool :=
  decide (d < today)

/-! ## Derived per-employee step functions

Every store write of the passes is a `List.map` over `employees`, so each
pass acts on each employee row independently; the following functions are
the per-row actions, related to the passes by the fusion lemmas below. -/

/-- The per-employee action of the Scheduled Pass loop over `rows`. -/
def schedStep (today : Nat) (rows : List ScheduledStatus) (e : Employee) :
    Employee :=
  rows.foldl (fun e row => markEmp row.employeeId row.statusText today e) e

/-- The per-employee action of the Recurring Pass loop over `rows`,
skipping rows whose employee appears in `skipIds`. -/
def recurStep (today : Nat) (skipIds : List String)
    (rows : List RecurringStatus) (e : Employee) : Employee :=
  rows.foldl
    (fun e row =>
      if skipIds.contains row.employeeId then e
      else markEmp row.employeeId row.statusText today e) e

/-- The employee-level idempotency marker is set for `today`:
`already_applied && applied_date === today`. -/
def markedToday (today : Nat) (e : Employee) : Bool :=
  e.alreadyApplied && e.appliedDate == some today

/-! ## Basic lemmas about the per-employee steps -/

/-! ## Derived predicates and demonstration data -/

/-- The candidate ids submitted to both passes by `loadEmployees`. -/
def candIds (tid : String) (today : Nat) (s : Store) : List String :=
  (employeesToProcess tid today s).map (·.id)

/-- The per-employee action of one whole resolver invocation in the
non-fast-path case: Recurring Pass then Scheduled Pass. -/
def resolveFn (tid : String) (today w : Nat) (s : Store) :
    Employee → Employee := fun e =>
  schedStep today (schedTodayRows tid (candIds tid today s) today s.scheduledStatuses)
    (recurStep today
      ((schedTodayRows tid (candIds tid today s) today s.scheduledStatuses).map (·.employeeId))
      (recurTodayRows tid (candIds tid today s) w s.recurringStatuses) e)

/-- The employee shows status `S` and carries the idempotency markers
for day `d`. -/
def appliedAs (S : String) (d : Nat) (e : Employee) : Prop :=
  e.status = S ∧ e.alreadyApplied = true ∧ e.appliedDate = some d

/-- Bob: recurring enabled, unprocessed, with both a rule and an override. -/
def bobC1 : Employee := ⟨"e2", "t1", "Bob", "Available", true, false, none⟩

def ruleC1 : RecurringStatus := ⟨"r2", "e2", "t1", 3, "Remote"⟩

def ovC1 : ScheduledStatus := ⟨"s2", "e2", "t1", 10, "Sick"⟩

def storeC1 : Store := ⟨[bobC1], [ruleC1], [ovC1]⟩

/-- Bob after resolving `storeC1` on day 10 (day-of-week 3). -/
def bobC1After : Employee := ⟨"e2", "t1", "Bob", "Sick", true, true, some 10⟩

def annC10 : Employee := ⟨"e1", "t1", "Ann", "Available", true, false, none⟩

def ruleC10 : RecurringStatus := ⟨"r1", "e1", "t1", 3, "WFH"⟩

def storeC10 : Store := ⟨[annC10], [ruleC10], []⟩

def annC3 : Employee := ⟨"e1", "t3", "Ann", "Available", false, false, none⟩

/-- A stale override dated 9, strictly before day 10. -/
def staleOvC3 : ScheduledStatus := ⟨"s3", "e1", "t3", 9, "Sick"⟩

def storeC3 : Store := ⟨[annC3], [], [staleOvC3]⟩

def annC5 : Employee := ⟨"e1", "t5", "Ann", "In office", false, false, none⟩

/-- An override dated three days before day 10 that was never applied. -/
def staleOvC5 : ScheduledStatus := ⟨"s5", "e1", "t5", 7, "Vacation"⟩

def storeC5 : Store := ⟨[annC5], [], [staleOvC5]⟩

def alC4 : Employee := ⟨"e1", "t4", "Al", "Available", false, false, none⟩

def boC4 : Employee := ⟨"e2", "t4", "Bo", "Available", true, false, none⟩

def ruleAlC4 : RecurringStatus := ⟨"r1", "e1", "t4", 3, "WFH"⟩

def ruleBoC4 : RecurringStatus := ⟨"r2", "e2", "t4", 3, "WFH"⟩

def storeC4 : Store := ⟨[alC4, boC4], [ruleAlC4, ruleBoC4], []⟩

def cyC6 : Employee := ⟨"e1", "t6", "Cy", "Available", false, false, none⟩

def ovC6 : ScheduledStatus := ⟨"s6", "e1", "t6", 10, "Sick"⟩

def storeC6 : Store := ⟨[cyC6], [], [ovC6]⟩

def deeC7 : Employee := ⟨"e1", "t7", "Dee", "Available", true, false, none⟩

/-- A recurring rule for day-of-week 0 (Sunday). -/
def ruleC7 : RecurringStatus := ⟨"r7", "e1", "t7", 0, "Sunday duty"⟩

def storeC7 : Store := ⟨[deeC7], [ruleC7], []⟩

def storeC9 : Store := ⟨[], [], []⟩

theorem schedStep_cons (d : Nat) (q : ScheduledStatus)
    (rows : List ScheduledStatus) (e : Employee) :
    schedStep d (q :: rows) e
      = schedStep d rows (markEmp q.employeeId q.statusText d e) := rfl

theorem recurStep_cons (d : Nat) (skipIds : List String)
    (r : RecurringStatus) (rows : List RecurringStatus) (e : Employee) :
    recurStep d skipIds (r :: rows) e
      = recurStep d skipIds rows
          (if skipIds.contains r.employeeId then e
           else markEmp r.employeeId r.statusText d e) := rfl

theorem markEmp_id (i t : String) (d : Nat) (e : Employee) :
    (markEmp i t d e).id = e.id := by
  unfold markEmp; split <;> rfl

theorem markEmp_tenantId (i t : String) (d : Nat) (e : Employee) :
    (markEmp i t d e).tenantId = e.tenantId := by
  unfold markEmp; split <;> rfl

theorem markedToday_markEmp_stable (i t : String) (d : Nat) (e : Employee)
    (h : markedToday d e = true) : markedToday d (markEmp i t d e) = true := by
  unfold markEmp; split
  · simp [markedToday]
  · exact h

theorem markedToday_markEmp_hit (i t : String) (d : Nat) (e : Employee)
    (h : e.id = i) : markedToday d (markEmp i t d e) = true := by
  unfold markEmp
  rw [if_pos (by simp [h])]
  simp [markedToday]

theorem markEmp_of_ne (i t : String) (d : Nat) (e : Employee)
    (h : e.id ≠ i) : markEmp i t d e = e := by
  unfold markEmp
  rw [if_neg (by simp [h])]

theorem schedStep_id (d : Nat) (rows : List ScheduledStatus) (e : Employee) :
    (schedStep d rows e).id = e.id := by
  induction rows generalizing e with
  | nil => rfl
  | cons q rows ih =>
    rw [schedStep_cons, ih, markEmp_id]

theorem schedStep_tenantId (d : Nat) (rows : List ScheduledStatus)
    (e : Employee) : (schedStep d rows e).tenantId = e.tenantId := by
  induction rows generalizing e with
  | nil => rfl
  | cons q rows ih =>
    rw [schedStep_cons, ih, markEmp_tenantId]

theorem schedStep_marked_stable (d : Nat) (rows : List ScheduledStatus)
    (e : Employee) (h : markedToday d e = true) :
    markedToday d (schedStep d rows e) = true := by
  induction rows generalizing e with
  | nil => exact h
  | cons q rows ih =>
    rw [schedStep_cons]
    exact ih _ (markedToday_markEmp_stable _ _ _ _ h)

theorem schedStep_marked_hit (d : Nat) (rows : List ScheduledStatus)
    (e : Employee) (q : ScheduledStatus) (hq : q ∈ rows)
    (hid : q.employeeId = e.id) :
    markedToday d (schedStep d rows e) = true := by
  induction rows generalizing e with
  | nil => cases hq
  | cons p rows ih =>
    rw [schedStep_cons]
    rcases List.mem_cons.mp hq with h | h
    · subst h
      exact schedStep_marked_stable d rows _
        (markedToday_markEmp_hit _ _ _ _ hid.symm)
    · exact ih (markEmp p.employeeId p.statusText d e) h
        (by rw [markEmp_id]; exact hid)

theorem schedStep_of_no_hit (d : Nat) (rows : List ScheduledStatus)
    (e : Employee) (h : ∀ q ∈ rows, q.employeeId ≠ e.id) :
    schedStep d rows e = e := by
  induction rows generalizing e with
  | nil => rfl
  | cons q rows ih =>
    rw [schedStep_cons,
      markEmp_of_ne _ _ _ _ (fun he => h q (List.mem_cons_self _ _) he.symm)]
    exact ih e fun p hp => h p (List.mem_cons_of_mem _ hp)

theorem recurStep_id (d : Nat) (skipIds : List String)
    (rows : List RecurringStatus) (e : Employee) :
    (recurStep d skipIds rows e).id = e.id := by
  induction rows generalizing e with
  | nil => rfl
  | cons r rows ih =>
    rw [recurStep_cons, ih]
    split <;> simp [markEmp_id]

theorem recurStep_tenantId (d : Nat) (skipIds : List String)
    (rows : List RecurringStatus) (e : Employee) :
    (recurStep d skipIds rows e).tenantId = e.tenantId := by
  induction rows generalizing e with
  | nil => rfl
  | cons r rows ih =>
    rw [recurStep_cons, ih]
    split <;> simp [markEmp_tenantId]

theorem recurStep_marked_stable (d : Nat) (skipIds : List String)
    (rows : List RecurringStatus) (e : Employee)
    (h : markedToday d e = true) :
    markedToday d (recurStep d skipIds rows e) = true := by
  induction rows generalizing e with
  | nil => exact h
  | cons r rows ih =>
    rw [recurStep_cons]
    refine ih _ ?_
    split
    · exact h
    · exact markedToday_markEmp_stable _ _ _ _ h

theorem recurStep_marked_hit (d : Nat) (skipIds : List String)
    (rows : List RecurringStatus) (e : Employee) (r : RecurringStatus)
    (hr : r ∈ rows) (hid : r.employeeId = e.id)
    (hskip : skipIds.contains r.employeeId = false) :
    markedToday d (recurStep d skipIds rows e) = true := by
  induction rows generalizing e with
  | nil => cases hr
  | cons p rows ih =>
    rw [recurStep_cons]
    rcases List.mem_cons.mp hr with h | h
    · subst h
      rw [hskip]
      simp only [Bool.false_eq_true, if_false]
      exact recurStep_marked_stable d skipIds rows _
        (markedToday_markEmp_hit _ _ _ _ hid.symm)
    · refine ih (if skipIds.contains p.employeeId then e
        else markEmp p.employeeId p.statusText d e) h ?_
      split
      · exact hid
      · rw [markEmp_id]; exact hid

theorem recurStep_of_no_hit (d : Nat) (skipIds : List String)
    (rows : List RecurringStatus) (e : Employee)
    (h : ∀ r ∈ rows, r.employeeId ≠ e.id) :
    recurStep d skipIds rows e = e := by
  induction rows generalizing e with
  | nil => rfl
  | cons r rows ih =>
    rw [recurStep_cons]
    have hne : r.employeeId ≠ e.id := h r (List.mem_cons_self _ _)
    have hstep : (if skipIds.contains r.employeeId then e
        else markEmp r.employeeId r.statusText d e) = e := by
      split
      · rfl
      · exact markEmp_of_ne _ _ _ _ (fun he => hne he.symm)
    rw [hstep]
    exact ih e fun p hp => h p (List.mem_cons_of_mem _ hp)

/-! ## Fusion: each pass is a pointwise map over the employee rows -/

theorem foldl_update_sched (d : Nat) (rows : List ScheduledStatus)
    (s : Store) :
    rows.foldl (fun st row =>
        updateEmployeeStatusMarked row.employeeId row.statusText d st) s
      = ⟨s.employees.map (schedStep d rows), s.recurringStatuses,
         s.scheduledStatuses⟩ := by
  induction rows generalizing s with
  | nil =>
    show s = _
    cases s with
    | mk es rs ss =>
      show _ = Store.mk (es.map id) rs ss
      rw [List.map_id]
  | cons q rows ih =>
    rw [List.foldl_cons, ih]
    simp only [updateEmployeeStatusMarked, List.map_map]
    rfl

theorem foldl_update_recur (d : Nat) (skipIds : List String)
    (rows : List RecurringStatus) (s : Store) :
    rows.foldl (fun st row =>
        if skipIds.contains row.employeeId then st
        else updateEmployeeStatusMarked row.employeeId row.statusText d st) s
      = ⟨s.employees.map (recurStep d skipIds rows), s.recurringStatuses,
         s.scheduledStatuses⟩ := by
  induction rows generalizing s with
  | nil =>
    show s = _
    cases s with
    | mk es rs ss =>
      show _ = Store.mk (es.map id) rs ss
      rw [List.map_id]
  | cons r rows ih =>
    rw [List.foldl_cons]
    by_cases h : skipIds.contains r.employeeId
    · have hf : recurStep d skipIds (r :: rows) = recurStep d skipIds rows :=
        funext fun e => by rw [recurStep_cons, if_pos h]
      rw [if_pos h, ih, hf]
    · have hf : recurStep d skipIds (r :: rows)
          = fun e => recurStep d skipIds rows
              (markEmp r.employeeId r.statusText d e) :=
        funext fun e => by rw [recurStep_cons, if_neg h]
      rw [if_neg h, ih]
      simp only [updateEmployeeStatusMarked, List.map_map]
      rw [hf]
      rfl

/-! ## Characterizing the passes componentwise -/

theorem applyScheduledStatuses_empty (tid : String) (ids : List String)
    (d : Nat) (s : Store)
    (h : schedTodayRows tid ids d s.scheduledStatuses = []) :
    applyScheduledStatuses tid ids d s = s := by
  unfold applyScheduledStatuses
  simp [h]

theorem applyScheduledStatuses_nonempty (tid : String) (ids : List String)
    (d : Nat) (s : Store)
    (h : schedTodayRows tid ids d s.scheduledStatuses ≠ []) :
    applyScheduledStatuses tid ids d s
      = ⟨s.employees.map (schedStep d (schedTodayRows tid ids d s.scheduledStatuses)),
         s.recurringStatuses,
         s.scheduledStatuses.filter fun r =>
           !(r.tenantId == tid && decide (r.scheduledDate < d))⟩ := by
  unfold applyScheduledStatuses
  simp only [List.isEmpty_iff, h, if_false]
  rw [foldl_update_sched]

theorem applyRecurringStatuses_emp (tid : String) (ids : List String)
    (d w : Nat) (s : Store) :
    applyRecurringStatuses tid ids d w s
      = ⟨s.employees.map
            (recurStep d ((schedTodayRows tid ids d s.scheduledStatuses).map (·.employeeId))
              (recurTodayRows tid ids w s.recurringStatuses)),
          s.recurringStatuses, s.scheduledStatuses⟩ := by
  unfold applyRecurringStatuses
  by_cases h : recurTodayRows tid ids w s.recurringStatuses = []
  · simp only [h, List.isEmpty_nil, if_true]
    cases s with
    | mk es rs ss =>
      have hid : recurStep d ((schedTodayRows tid ids d ss).map (·.employeeId)) ([] : List RecurringStatus) = id := rfl
      show Store.mk es rs ss = _
      rw [show (Store.mk es rs ss).scheduledStatuses = ss from rfl,
          show (Store.mk es rs ss).employees = es from rfl, hid, List.map_id]
  · simp only [List.isEmpty_iff, h, if_false]
    rw [foldl_update_recur]

theorem loadEmployees_pair (tid : String) (d w : Nat) (s : Store) :
    loadEmployees tid d w s
      = (resolveStore tid d w s,
         (resolveStore tid d w s).employees.filter fun e =>
           e.tenantId == tid) := rfl

theorem resolveStore_fast (tid : String) (d w : Nat) (s : Store)
    (h : employeesToProcess tid d s = []) : resolveStore tid d w s = s := by
  unfold resolveStore loadEmployees
  simp [h]

theorem resolveStore_nonfast (tid : String) (d w : Nat) (s : Store)
    (h : employeesToProcess tid d s ≠ []) :
    resolveStore tid d w s
      = applyScheduledStatuses tid (candIds tid d s) d
          (applyRecurringStatuses tid (candIds tid d s) d w s) := by
  unfold resolveStore loadEmployees
  simp only [List.isEmpty_iff, h, if_false]
  rfl

theorem resolveStore_eq (tid : String) (d w : Nat) (s : Store)
    (h : employeesToProcess tid d s ≠ []) :
    resolveStore tid d w s
      = ⟨s.employees.map (resolveFn tid d w s),
         s.recurringStatuses,
         if (schedTodayRows tid (candIds tid d s) d s.scheduledStatuses).isEmpty
         then s.scheduledStatuses
         else s.scheduledStatuses.filter fun r =>
           !(r.tenantId == tid && decide (r.scheduledDate < d))⟩ := by
  rw [resolveStore_nonfast tid d w s h,
      applyRecurringStatuses_emp tid (candIds tid d s) d w s]
  by_cases hs : schedTodayRows tid (candIds tid d s) d s.scheduledStatuses = []
  · rw [applyScheduledStatuses_empty _ _ _ _ (by exact hs)]
    simp only [hs, List.isEmpty_nil, if_true]
    have hid : schedStep d ([] : List ScheduledStatus) = id := rfl
    have : resolveFn tid d w s = recurStep d
        ((schedTodayRows tid (candIds tid d s) d s.scheduledStatuses).map (·.employeeId))
        (recurTodayRows tid (candIds tid d s) w s.recurringStatuses) := by
      funext e
      show schedStep d (schedTodayRows tid (candIds tid d s) d s.scheduledStatuses) _ = _
      rw [hs, hid]
      rfl
    rw [this, hs]
  · rw [applyScheduledStatuses_nonempty _ _ _ _ (by exact hs)]
    simp only [List.isEmpty_iff, hs, if_false, List.map_map]
    rfl

/-! ## Membership characterizations -/

theorem isCandidate_eq_not_marked (d : Nat) (e : Employee) :
    isCandidate d e = !markedToday d e := by
  unfold isCandidate markedToday
  cases e.alreadyApplied <;> simp [bne]

theorem mem_employeesToProcess (tid : String) (d : Nat) (s : Store)
    (e : Employee) :
    e ∈ employeesToProcess tid d s
      ↔ e ∈ s.employees ∧ e.tenantId = tid ∧ markedToday d e = false := by
  simp [employeesToProcess, List.mem_filter, isCandidate_eq_not_marked,
        and_assoc]
  intro _
  exact and_comm

theorem mem_schedTodayRows (tid : String) (ids : List String) (d : Nat)
    (rows : List ScheduledStatus) (q : ScheduledStatus) :
    q ∈ schedTodayRows tid ids d rows
      ↔ q ∈ rows ∧ q.tenantId = tid ∧ q.scheduledDate = d
          ∧ q.employeeId ∈ ids := by
  simp [schedTodayRows, List.mem_filter, and_assoc]

theorem mem_recurTodayRows (tid : String) (ids : List String) (w : Nat)
    (rows : List RecurringStatus) (r : RecurringStatus) :
    r ∈ recurTodayRows tid ids w rows
      ↔ r ∈ rows ∧ r.tenantId = tid ∧ r.dayOfWeek = w
          ∧ r.employeeId ∈ ids := by
  simp [recurTodayRows, List.mem_filter, and_assoc]

theorem mem_candIds (tid : String) (d : Nat) (s : Store) (x : String) :
    x ∈ candIds tid d s
      ↔ ∃ e ∈ s.employees,
          e.tenantId = tid ∧ markedToday d e = false ∧ e.id = x := by
  simp [candIds, List.mem_map, mem_employeesToProcess, and_assoc]

/-! ## Semantic lemmas about `resolveFn` -/

theorem resolveFn_id (tid : String) (d w : Nat) (s : Store) (e : Employee) :
    (resolveFn tid d w s e).id = e.id := by
  unfold resolveFn
  rw [schedStep_id, recurStep_id]

theorem resolveFn_tenantId (tid : String) (d w : Nat) (s : Store)
    (e : Employee) : (resolveFn tid d w s e).tenantId = e.tenantId := by
  unfold resolveFn
  rw [schedStep_tenantId, recurStep_tenantId]

theorem resolveFn_marked_stable (tid : String) (d w : Nat) (s : Store)
    (e : Employee) (h : markedToday d e = true) :
    markedToday d (resolveFn tid d w s e) = true := by
  unfold resolveFn
  exact schedStep_marked_stable _ _ _ (recurStep_marked_stable _ _ _ _ h)

theorem resolveFn_marked_of_ov (tid : String) (d w : Nat) (s : Store)
    (e : Employee) (q : ScheduledStatus) (hq : q ∈ s.scheduledStatuses)
    (htn : q.tenantId = tid) (hd : q.scheduledDate = d)
    (hid : q.employeeId = e.id) (hcand : e.id ∈ candIds tid d s) :
    markedToday d (resolveFn tid d w s e) = true := by
  unfold resolveFn
  refine schedStep_marked_hit _ _ _ q ?_ ?_
  · exact (mem_schedTodayRows _ _ _ _ _).mpr ⟨hq, htn, hd, by rw [hid]; exact hcand⟩
  · rw [recurStep_id]; exact hid

theorem resolveFn_marked_of_rule (tid : String) (d w : Nat) (s : Store)
    (e : Employee) (r : RecurringStatus) (hr : r ∈ s.recurringStatuses)
    (htn : r.tenantId = tid) (hw : r.dayOfWeek = w)
    (hid : r.employeeId = e.id) (hcand : e.id ∈ candIds tid d s) :
    markedToday d (resolveFn tid d w s e) = true := by
  unfold resolveFn
  by_cases hsk : ((schedTodayRows tid (candIds tid d s) d s.scheduledStatuses).map
      (·.employeeId)).contains r.employeeId
  · have : ∃ q ∈ schedTodayRows tid (candIds tid d s) d s.scheduledStatuses,
        q.employeeId = r.employeeId := by
      have := List.contains_iff_exists_mem_beq.mp hsk
      obtain ⟨x, hx, hbx⟩ := this
      obtain ⟨q, hq, rfl⟩ := List.mem_map.mp hx
      exact ⟨q, hq, (beq_iff_eq.mp hbx).symm⟩
    obtain ⟨q, hq, hqe⟩ := this
    refine schedStep_marked_hit _ _ _ q hq ?_
    rw [recurStep_id, hqe, hid]
  · refine schedStep_marked_stable _ _ _ ?_
    refine recurStep_marked_hit _ _ _ _ r ?_ hid (by simpa using hsk)
    exact (mem_recurTodayRows _ _ _ _ _).mpr ⟨hr, htn, hw, by rw [hid]; exact hcand⟩

theorem resolveFn_of_no_rows (tid : String) (d w : Nat) (s : Store)
    (e : Employee)
    (hnr : ∀ r ∈ s.recurringStatuses,
      r.tenantId = tid → r.dayOfWeek = w → r.employeeId ≠ e.id)
    (hns : ∀ q ∈ s.scheduledStatuses,
      q.tenantId = tid → q.scheduledDate = d → q.employeeId ≠ e.id) :
    resolveFn tid d w s e = e := by
  unfold resolveFn
  rw [recurStep_of_no_hit]
  · rw [schedStep_of_no_hit]
    intro q hq
    rw [mem_schedTodayRows] at hq
    exact hns q hq.1 hq.2.1 hq.2.2.1
  · intro r hr
    rw [mem_recurTodayRows] at hr
    exact hnr r hr.1 hr.2.1 hr.2.2.1

theorem applyRecurringStatuses_empty (tid : String) (ids : List String)
    (d w : Nat) (s : Store)
    (h : recurTodayRows tid ids w s.recurringStatuses = []) :
    applyRecurringStatuses tid ids d w s = s := by
  unfold applyRecurringStatuses
  simp [h]

/-- After one resolver invocation, an employee row that is still a
candidate for `d` has no recurring rule for `w` and no override dated `d`
left in the store: every row that could match it was applied (and marked)
during the invocation. -/
theorem resolved_candidate_no_rows (tid : String) (d w : Nat) (s : Store)
    (e1 : Employee) (he1 : e1 ∈ (resolveStore tid d w s).employees)
    (htn1 : e1.tenantId = tid) (hm1 : markedToday d e1 = false) :
    (∀ r ∈ (resolveStore tid d w s).recurringStatuses,
        r.tenantId = tid → r.dayOfWeek = w → r.employeeId ≠ e1.id)
    ∧ (∀ q ∈ (resolveStore tid d w s).scheduledStatuses,
        q.tenantId = tid → q.scheduledDate = d → q.employeeId ≠ e1.id) := by
  by_cases hfast : employeesToProcess tid d s = []
  · exfalso
    rw [resolveStore_fast tid d w s hfast] at he1
    have : e1 ∈ employeesToProcess tid d s :=
      (mem_employeesToProcess tid d s e1).mpr ⟨he1, htn1, hm1⟩
    rw [hfast] at this
    cases this
  · rw [resolveStore_eq tid d w s hfast] at he1 ⊢
    obtain ⟨e0, he0, hfe⟩ := List.mem_map.mp he1
    have hm0 : markedToday d e0 = false := by
      by_contra hm
      rw [Bool.not_eq_false] at hm
      have := resolveFn_marked_stable tid d w s e0 hm
      rw [hfe] at this
      rw [this] at hm1
      cases hm1
    have htn0 : e0.tenantId = tid := by
      have := resolveFn_tenantId tid d w s e0
      rw [hfe] at this
      rw [← this]
      exact htn1
    have hid0 : e0.id = e1.id := by
      have := resolveFn_id tid d w s e0
      rw [hfe] at this
      exact this.symm
    have hcand : e0.id ∈ candIds tid d s :=
      (mem_candIds tid d s e0.id).mpr ⟨e0, he0, htn0, hm0, rfl⟩
    constructor
    · intro r hr htr hwr heqr
      have := resolveFn_marked_of_rule tid d w s e0 r hr htr hwr
        (by rw [heqr, ← hid0]) hcand
      rw [hfe] at this
      rw [this] at hm1
      cases hm1
    · intro q hq htq hdq heqq
      have hq0 : q ∈ s.scheduledStatuses := by
        revert hq
        show q ∈ (if _ then _ else _) → _
        split
        · exact fun hq => hq
        · exact fun hq => List.mem_of_mem_filter hq
      have := resolveFn_marked_of_ov tid d w s e0 q hq0 htq hdq
        (by rw [heqq, ← hid0]) hcand
      rw [hfe] at this
      rw [this] at hm1
      cases hm1

theorem resolveStore_idem (tid : String) (d w : Nat) (s : Store) :
    resolveStore tid d w (resolveStore tid d w s) = resolveStore tid d w s := by
  set s1 := resolveStore tid d w s with hs1
  by_cases hfast : employeesToProcess tid d s1 = []
  · exact resolveStore_fast tid d w s1 hfast
  · rw [resolveStore_nonfast tid d w s1 hfast]
    have hR : recurTodayRows tid (candIds tid d s1) w s1.recurringStatuses = [] := by
      rw [List.eq_nil_iff_forall_not_mem]
      intro r hr
      rw [mem_recurTodayRows] at hr
      obtain ⟨hr1, htr, hwr, hmemid⟩ := hr
      obtain ⟨e1, he1, htn1, hm1, hid1⟩ := (mem_candIds tid d s1 _).mp hmemid
      exact (resolved_candidate_no_rows tid d w s e1 he1 htn1 hm1).1
        r hr1 htr hwr (by rw [hid1])
    have hS : schedTodayRows tid (candIds tid d s1) d s1.scheduledStatuses = [] := by
      rw [List.eq_nil_iff_forall_not_mem]
      intro q hq
      rw [mem_schedTodayRows] at hq
      obtain ⟨hq1, htq, hdq, hmemid⟩ := hq
      obtain ⟨e1, he1, htn1, hm1, hid1⟩ := (mem_candIds tid d s1 _).mp hmemid
      exact (resolved_candidate_no_rows tid d w s e1 he1 htn1 hm1).2
        q hq1 htq hdq (by rw [hid1])
    rw [applyRecurringStatuses_empty tid (candIds tid d s1) d w s1 hR,
        applyScheduledStatuses_empty tid (candIds tid d s1) d s1 hS]

/-- C2: invoking the resolver twice in succession on the same date `d`
(and day-of-week `w`), with no intervening edits, returns the same store
and the same displayed roster as invoking it once: the second invocation
performs no employee write and leaves every `alreadyApplied`/`appliedDate`
marker — indeed the whole store — exactly as the first left it. -/
theorem claim_C2_resolver_idempotent (tid : String) (d w : Nat) (s : Store) :
    loadEmployees tid d w (resolveStore tid d w s)
      = loadEmployees tid d w s := by
  rw [loadEmployees_pair tid d w (resolveStore tid d w s),
      loadEmployees_pair tid d w s, resolveStore_idem]

/-! ## Status values written by the Scheduled Pass -/

theorem markEmp_appliedAs_hit (i t S : String) (d : Nat) (e : Employee)
    (h : e.id = i) (ht : t = S) : appliedAs S d (markEmp i t d e) := by
  unfold markEmp
  rw [if_pos (by simp [h])]
  exact ⟨ht, rfl, rfl⟩

theorem markEmp_appliedAs_preserve (i t S : String) (d : Nat) (e : Employee)
    (hp : appliedAs S d e) (himp : e.id = i → t = S) :
    appliedAs S d (markEmp i t d e) := by
  by_cases h : e.id = i
  · exact markEmp_appliedAs_hit i t S d e h (himp h)
  · rw [markEmp_of_ne i t d e h]
    exact hp

theorem schedStep_appliedAs (S : String) (d : Nat)
    (rows : List ScheduledStatus) (e : Employee)
    (huni : ∀ q ∈ rows, q.employeeId = e.id → q.statusText = S)
    (h : appliedAs S d e ∨ ∃ q ∈ rows, q.employeeId = e.id) :
    appliedAs S d (schedStep d rows e) := by
  induction rows generalizing e with
  | nil =>
    rcases h with h | ⟨q, hq, _⟩
    · exact h
    · cases hq
  | cons p rows ih =>
    rw [schedStep_cons]
    have hid : (markEmp p.employeeId p.statusText d e).id = e.id :=
      markEmp_id _ _ _ _
    refine ih (markEmp p.employeeId p.statusText d e)
      (fun q hq hqe => huni q (List.mem_cons_of_mem _ hq) (by rw [hqe, hid]))
      ?_
    rcases h with h | ⟨q, hq, hqe⟩
    · left
      exact markEmp_appliedAs_preserve _ _ _ _ _ h
        (fun he => huni p (List.mem_cons_self _ _) he.symm)
    · rcases List.mem_cons.mp hq with rfl | hq'
      · left
        exact markEmp_appliedAs_hit _ _ _ _ _ hqe.symm
          (huni q (List.mem_cons_self _ _) hqe)
      · right
        exact ⟨q, hq', by rw [hid]; exact hqe⟩

/-- C1: on day `d` (day-of-week `w`), an employee with recurring enabled,
a recurring rule for `w` with text `R`, and a scheduled override dated
exactly `d` with text `S`, ends the resolver invocation with status `S`
(and the day-`d` markers): the Recurring Pass skips employees that have an
override dated today, and the Scheduled Pass, running after it, writes the
override's text. -/
theorem claim_C1_scheduled_wins_over_recurring (tid : String) (d w : Nat)
    (s : Store) (e : Employee) (R S : String)
    (he : e ∈ s.employees) (htn : e.tenantId = tid)
    (hen : e.recurringEnabled = true) (hcand : isCandidate d e = true)
    (r : RecurringStatus) (hr : r ∈ s.recurringStatuses)
    (hrt : r.tenantId = tid) (hrw : r.dayOfWeek = w)
    (hre : r.employeeId = e.id) (hrs : r.statusText = R)
    (q : ScheduledStatus) (hq : q ∈ s.scheduledStatuses)
    (hqt : q.tenantId = tid) (hqd : q.scheduledDate = d)
    (hqe : q.employeeId = e.id) (hqs : q.statusText = S)
    (huni : ∀ p ∈ s.scheduledStatuses,
      p.tenantId = tid → p.scheduledDate = d → p.employeeId = e.id →
        p.statusText = S) :
    ∀ e' ∈ (resolveStore tid d w s).employees, e'.id = e.id →
      e'.status = S ∧ e'.alreadyApplied = true ∧ e'.appliedDate = some d := by
  have hm : markedToday d e = false := by
    rw [isCandidate_eq_not_marked] at hcand
    simpa using hcand
  have hfast : employeesToProcess tid d s ≠ [] := by
    intro h0
    have : e ∈ employeesToProcess tid d s :=
      (mem_employeesToProcess tid d s e).mpr ⟨he, htn, hm⟩
    rw [h0] at this
    cases this
  have hcid : e.id ∈ candIds tid d s :=
    (mem_candIds tid d s e.id).mpr ⟨e, he, htn, hm, rfl⟩
  rw [resolveStore_eq tid d w s hfast]
  intro e' he' hid
  obtain ⟨e0, he0, hfe⟩ := List.mem_map.mp he'
  have hid0 : e0.id = e.id := by
    rw [← resolveFn_id tid d w s e0, hfe]
    exact hid
  subst hfe
  unfold resolveFn
  have hxid : (recurStep d
      ((schedTodayRows tid (candIds tid d s) d s.scheduledStatuses).map (·.employeeId))
      (recurTodayRows tid (candIds tid d s) w s.recurringStatuses) e0).id = e.id := by
    rw [recurStep_id]
    exact hid0
  refine schedStep_appliedAs S d _ _ ?_ (Or.inr ⟨q, ?_, ?_⟩)
  · intro p hp hpe
    rw [mem_schedTodayRows] at hp
    exact huni p hp.1 hp.2.1 hp.2.2.1 (hpe.trans hxid)
  · exact (mem_schedTodayRows _ _ _ _ _).mpr ⟨hq, hqt, hqd, by rw [hqe]; exact hcid⟩
  · rw [hxid]
    exact hqe

/-! ## Demonstration stores for the concrete instantiations -/

theorem claim_C1_witness :
    bobC1After.status = "Sick" ∧ bobC1After.alreadyApplied = true
      ∧ bobC1After.appliedDate = some 10 :=
  claim_C1_scheduled_wins_over_recurring "t1" 10 3 storeC1 bobC1 "Remote" "Sick"
    (by decide) rfl rfl (by decide)
    ruleC1 (by decide) rfl rfl rfl rfl
    ovC1 (by decide) rfl rfl rfl rfl
    (by decide)
    bobC1After (by decide) rfl

/-- C10: the idempotency markers are written only together with an actual
status application.  For an employee `e` of tenant `tid` (with distinct row
ids): (i) after one invocation the row with `e`'s id carries the day-`d`
marker iff it carried it before, or a recurring rule for day-of-week `w`
or an override dated `d` existed for `e` — i.e. iff a status was actually
written (or the marker predates the invocation); (ii) an unprocessed
employee with no matching rule and no override for `d` stays in the
candidate set of the next invocation, so the empty-candidate fast path is
not reached while such an employee exists. -/
theorem claim_C10_markers_iff_written (tid : String) (d w : Nat)
    (s : Store) (e : Employee)
    (hnd : (s.employees.map (·.id)).Nodup)
    (he : e ∈ s.employees) (htn : e.tenantId = tid) :
    (∀ e' ∈ (resolveStore tid d w s).employees, e'.id = e.id →
      (markedToday d e' = true ↔
        (markedToday d e = true
          ∨ (∃ r ∈ s.recurringStatuses,
              r.tenantId = tid ∧ r.dayOfWeek = w ∧ r.employeeId = e.id)
          ∨ (∃ q ∈ s.scheduledStatuses,
              q.tenantId = tid ∧ q.scheduledDate = d ∧ q.employeeId = e.id))))
    ∧ (isCandidate d e = true →
        (∀ r ∈ s.recurringStatuses,
          ¬(r.tenantId = tid ∧ r.dayOfWeek = w ∧ r.employeeId = e.id)) →
        (∀ q ∈ s.scheduledStatuses,
          ¬(q.tenantId = tid ∧ q.scheduledDate = d ∧ q.employeeId = e.id)) →
        e ∈ employeesToProcess tid d (resolveStore tid d w s)
          ∧ employeesToProcess tid d (resolveStore tid d w s) ≠ []) := by
  constructor
  · intro e' he' hid
    by_cases hfast : employeesToProcess tid d s = []
    · rw [resolveStore_fast tid d w s hfast] at he'
      have heq : e' = e := List.inj_on_of_nodup_map hnd he' he hid
      subst heq
      constructor
      · exact Or.inl
      · rintro (hm | ⟨r, hr, htr, hwr, hre⟩ | ⟨q, hq, htq, hdq, hqe⟩)
        · exact hm
        all_goals {
          by_cases hm : markedToday d e' = true
          · exact hm
          · exfalso
            have : e' ∈ employeesToProcess tid d s :=
              (mem_employeesToProcess tid d s e').mpr
                ⟨he', htn, Bool.eq_false_iff.mpr hm⟩
            rw [hfast] at this
            cases this
        }
    · rw [resolveStore_eq tid d w s hfast] at he'
      obtain ⟨e0, he0, hfe⟩ := List.mem_map.mp he'
      have hid0 : e0.id = e.id := by
        rw [← resolveFn_id tid d w s e0, hfe]
        exact hid
      have heq : e0 = e := List.inj_on_of_nodup_map hnd he0 he hid0
      subst heq
      subst hfe
      constructor
      · intro hmk
        by_contra hno
        push_neg at hno
        obtain ⟨hm, hnr, hns⟩ := hno
        rw [resolveFn_of_no_rows tid d w s e0 hnr hns] at hmk
        exact hm hmk
      · rintro (hm | ⟨r, hr, htr, hwr, hre⟩ | ⟨q, hq, htq, hdq, hqe⟩)
        · exact resolveFn_marked_stable tid d w s e0 hm
        · by_cases hm : markedToday d e0 = true
          · exact resolveFn_marked_stable tid d w s e0 hm
          · exact resolveFn_marked_of_rule tid d w s e0 r hr htr hwr hre
              ((mem_candIds tid d s e0.id).mpr
                ⟨e0, he0, htn, Bool.eq_false_iff.mpr hm, rfl⟩)
        · by_cases hm : markedToday d e0 = true
          · exact resolveFn_marked_stable tid d w s e0 hm
          · exact resolveFn_marked_of_ov tid d w s e0 q hq htq hdq hqe
              ((mem_candIds tid d s e0.id).mpr
                ⟨e0, he0, htn, Bool.eq_false_iff.mpr hm, rfl⟩)
  · intro hcand hnr hns
    have hm : markedToday d e = false := by
      rw [isCandidate_eq_not_marked] at hcand
      simpa using hcand
    have hfast : employeesToProcess tid d s ≠ [] := by
      intro h0
      have : e ∈ employeesToProcess tid d s :=
        (mem_employeesToProcess tid d s e).mpr ⟨he, htn, hm⟩
      rw [h0] at this
      cases this
    have hfix : resolveFn tid d w s e = e :=
      resolveFn_of_no_rows tid d w s e
        (fun r hr htr hwr hre => hnr r hr ⟨htr, hwr, hre⟩)
        (fun q hq htq hdq hqe => hns q hq ⟨htq, hdq, hqe⟩)
    have hmem : e ∈ (resolveStore tid d w s).employees := by
      rw [resolveStore_eq tid d w s hfast]
      exact List.mem_map.mpr ⟨e, he, hfix⟩
    have hmem2 : e ∈ employeesToProcess tid d (resolveStore tid d w s) :=
      (mem_employeesToProcess tid d _ e).mpr ⟨hmem, htn, hm⟩
    exact ⟨hmem2, List.ne_nil_of_mem hmem2⟩

/-! ## C10 instantiation -/

theorem claim_C10_witness :
    markedToday 10 (⟨"e1", "t1", "Ann", "WFH", true, true, some 10⟩ : Employee)
      = true :=
  ((claim_C10_markers_iff_written "t1" 10 3 storeC10 annC10
      (by decide) (by decide) rfl).1
    ⟨"e1", "t1", "Ann", "WFH", true, true, some 10⟩ (by decide) rfl).mpr
    (Or.inr (Or.inl ⟨ruleC10, by decide, rfl, rfl, rfl⟩))

/-! ## C3: the Retention/Cleanup delete is not unconditional -/

/-- C3 (failing input): on day 10 the candidate set is nonempty, the
override is dated strictly before day 10, yet one resolver invocation
leaves the stale override in the store: `applyScheduledStatuses` returns
before the cleanup delete whenever no override dated exactly today exists
for a candidate, so the deletion is not unconditional. -/
theorem claim_C3_cleanup_skipped :
    employeesToProcess "t3" 10 storeC3 ≠ []
      ∧ staleOvC3.scheduledDate < 10
      ∧ (resolveStore "t3" 10 4 storeC3).scheduledStatuses = [staleOvC3] := by
  refine ⟨by decide, by decide, by decide⟩

/-! ## C5: stale overrides are not applied, but neither are they purged -/

/-- C5 (failing input): an override dated three days ago and never applied
is indeed not retroactively applied (the employee row is untouched), but
contrary to the claim it is not purged either: with no override dated
exactly today, the Scheduled Pass returns before the cleanup delete. -/
theorem claim_C5_no_retroactive_but_no_purge :
    staleOvC5.scheduledDate + 3 = 10
      ∧ (resolveStore "t5" 10 4 storeC5).employees = [annC5]
      ∧ (resolveStore "t5" 10 4 storeC5).scheduledStatuses = [staleOvC5] := by
  refine ⟨by decide, by decide, by decide⟩

/-! ## C4: the Recurring Pass ignores `recurring_enabled` -/

/-- C4 (failing input): two identical employees with a rule for today's
day-of-week, one with `recurringEnabled = false` and one with `true`; the
resolver updates BOTH, because `applyRecurringStatuses` never filters on
`recurring_enabled` — contradicting the claim (and the profile UI's
description) that only employees with the flag set are selected. -/
theorem claim_C4_disabled_employee_still_updated :
    alC4.recurringEnabled = false
      ∧ (resolveStore "t4" 10 3 storeC4).employees
          = [⟨"e1", "t4", "Al", "WFH", false, true, some 10⟩,
             ⟨"e2", "t4", "Bo", "WFH", true, true, some 10⟩] := by
  refine ⟨rfl, by decide⟩

/-! ## C6: what the Scheduled Pass writes, and what it does not -/

/-- C6 (amended): for an override applied by the Scheduled Pass
(`scheduledDate = d`, employee in the candidate set), the pass sets the
employee's status to the override's text and marks the employee
`alreadyApplied = true` with `appliedDate = d`; it writes no override-level
marker — the override row itself survives the invocation unchanged (and the
schema has no `lastAppliedDate` column to stamp). -/
theorem claim_C6_scheduled_apply_marks_employee_only (tid : String)
    (d w : Nat) (s : Store) (e : Employee) (S : String)
    (he : e ∈ s.employees) (htn : e.tenantId = tid)
    (hcand : isCandidate d e = true)
    (q : ScheduledStatus) (hq : q ∈ s.scheduledStatuses)
    (hqt : q.tenantId = tid) (hqd : q.scheduledDate = d)
    (hqe : q.employeeId = e.id) (hqs : q.statusText = S)
    (huni : ∀ p ∈ s.scheduledStatuses,
      p.tenantId = tid → p.scheduledDate = d → p.employeeId = e.id →
        p.statusText = S) :
    (∀ e' ∈ (resolveStore tid d w s).employees, e'.id = e.id →
      e'.status = S ∧ e'.alreadyApplied = true ∧ e'.appliedDate = some d)
    ∧ q ∈ (resolveStore tid d w s).scheduledStatuses := by
  have hm : markedToday d e = false := by
    rw [isCandidate_eq_not_marked] at hcand
    simpa using hcand
  have hfast : employeesToProcess tid d s ≠ [] := by
    intro h0
    have : e ∈ employeesToProcess tid d s :=
      (mem_employeesToProcess tid d s e).mpr ⟨he, htn, hm⟩
    rw [h0] at this
    cases this
  have hcid : e.id ∈ candIds tid d s :=
    (mem_candIds tid d s e.id).mpr ⟨e, he, htn, hm, rfl⟩
  have hqS : q ∈ schedTodayRows tid (candIds tid d s) d s.scheduledStatuses :=
    (mem_schedTodayRows _ _ _ _ _).mpr ⟨hq, hqt, hqd, by rw [hqe]; exact hcid⟩
  rw [resolveStore_eq tid d w s hfast]
  constructor
  · intro e' he' hid
    obtain ⟨e0, he0, hfe⟩ := List.mem_map.mp he'
    have hid0 : e0.id = e.id := by
      rw [← resolveFn_id tid d w s e0, hfe]
      exact hid
    subst hfe
    unfold resolveFn
    have hxid : (recurStep d
        ((schedTodayRows tid (candIds tid d s) d s.scheduledStatuses).map (·.employeeId))
        (recurTodayRows tid (candIds tid d s) w s.recurringStatuses) e0).id = e.id := by
      rw [recurStep_id]
      exact hid0
    refine schedStep_appliedAs S d _ _ ?_ (Or.inr ⟨q, hqS, ?_⟩)
    · intro p hp hpe
      rw [mem_schedTodayRows] at hp
      exact huni p hp.1 hp.2.1 hp.2.2.1 (hpe.trans hxid)
    · rw [hxid]
      exact hqe
  · show q ∈ (if (schedTodayRows tid (candIds tid d s) d s.scheduledStatuses).isEmpty
      then _ else _)
    have : (schedTodayRows tid (candIds tid d s) d s.scheduledStatuses).isEmpty
        = false := by
      rw [List.isEmpty_eq_false_iff_exists_mem]
      exact ⟨q, hqS⟩
    rw [this]
    simp only [Bool.false_eq_true, if_false]
    refine List.mem_filter.mpr ⟨hq, ?_⟩
    rw [hqd]
    simp

/-- C6 (counterexample to the claim as stated): an override dated today is
applied to its employee, yet the override row set after the invocation is
bit-for-bit the input row set — no field of the override row was stamped
with any applied marker, so no `lastAppliedDate = today` write occurred. -/
theorem claim_C6_counterexample :
    (resolveStore "t6" 10 4 storeC6).employees
        = [⟨"e1", "t6", "Cy", "Sick", false, true, some 10⟩]
      ∧ (resolveStore "t6" 10 4 storeC6).scheduledStatuses
        = storeC6.scheduledStatuses := by
  refine ⟨by decide, by decide⟩

theorem claim_C6_witness :
    ((⟨"e1", "t6", "Cy", "Sick", false, true, some 10⟩ : Employee).status = "Sick"
      ∧ (⟨"e1", "t6", "Cy", "Sick", false, true, some 10⟩ : Employee).alreadyApplied = true
      ∧ (⟨"e1", "t6", "Cy", "Sick", false, true, some 10⟩ : Employee).appliedDate = some 10)
    ∧ ovC6 ∈ (resolveStore "t6" 10 4 storeC6).scheduledStatuses :=
  ⟨(claim_C6_scheduled_apply_marks_employee_only "t6" 10 4 storeC6 cyC6 "Sick"
      (by decide) rfl (by decide)
      ovC6 (by decide) rfl rfl rfl rfl (by decide)).1
    ⟨"e1", "t6", "Cy", "Sick", false, true, some 10⟩ (by decide) rfl,
   (claim_C6_scheduled_apply_marks_employee_only "t6" 10 4 storeC6 cyC6 "Sick"
      (by decide) rfl (by decide)
      ovC6 (by decide) rfl rfl rfl rfl (by decide)).2⟩

/-! ## C7: the two independent clock reads -/

/-- C7 (failing input): the resolver reads the clock once for the date
(Index.tsx line 94) and again, independently, for the day-of-week
(line 178).  When both reads fall at time 6 the invocation agrees with the
single-read reference resolver; but when the first read falls on day 6
(day-of-week 6) and the second on day 7 (day-of-week 0, past midnight),
the invocation matches the single-read reference at NEITHER read: it
applies day 7's recurring rule stamped with day 6's date. -/
theorem claim_C7_clock_reads_disagree :
    loadEmployeesTwoReads "t7" 6 6 storeC7 = loadEmployeesSingleRead "t7" 6 storeC7
      ∧ loadEmployeesTwoReads "t7" 6 7 storeC7 ≠ loadEmployeesSingleRead "t7" 6 storeC7
      ∧ loadEmployeesTwoReads "t7" 6 7 storeC7 ≠ loadEmployeesSingleRead "t7" 7 storeC7 := by
  refine ⟨rfl, by decide, by decide⟩

/-! ## C8: the realtime push handler performs a read-only reselect -/

/-- C8: handling a change-notification push leaves every employee,
recurring rule and scheduled override unchanged — the handler issues no
write and re-runs no pass — and only reselects the tenant's employees for
display. -/
theorem claim_C8_push_handler_read_only (tid : String) (s : Store) :
    (handleEmployeesChange tid s).1 = s
      ∧ (handleEmployeesChange tid s).1.employees = s.employees
      ∧ (handleEmployeesChange tid s).1.recurringStatuses = s.recurringStatuses
      ∧ (handleEmployeesChange tid s).1.scheduledStatuses = s.scheduledStatuses
      ∧ (handleEmployeesChange tid s).2
          = s.employees.filter fun e => e.tenantId == tid :=
  ⟨rfl, rfl, rfl, rfl, rfl⟩

/-! ## C9: validation in `handleAddScheduledStatus` and the calendar -/

/-- C9 (amended): a missing date or empty (after trim) status text is
rejected by `handleAddScheduledStatus` before any store call, with an
immediate error; a past date is NOT rejected by the handler itself — it is
prevented only by the calendar widget, whose `disabled` predicate covers
exactly the dates before today, so an insert whose date was selectable in
the calendar always carries a date ≥ today. -/
theorem claim_C9_validation (today : Nat) (s : Store)
    (eid tid nid text : String) (od : Option Nat) :
    ((od = none ∨ jsTrim text = "") →
        handleAddScheduledStatus eid tid nid od text s
          = (s, some addScheduledError))
    ∧ (∀ d, od = some d → calendarDateDisabled today d = false →
        jsTrim text ≠ "" →
        handleAddScheduledStatus eid tid nid od text s
          = ({ s with scheduledStatuses := s.scheduledStatuses
                ++ [⟨nid, eid, tid, d, jsTrim text⟩] }, none)
          ∧ today ≤ d) := by
  constructor
  · rintro (rfl | htext)
    · rfl
    · cases od with
      | none => rfl
      | some d =>
        show (if (jsTrim text == "") = true then (s, some addScheduledError)
            else _) = (s, some addScheduledError)
        rw [if_pos (by rw [htext]; rfl)]
  · rintro d rfl hdis htext
    refine ⟨?_, ?_⟩
    · show (if (jsTrim text == "") = true then (s, some addScheduledError)
          else _) = _
      rw [if_neg (by simpa using htext)]
    · unfold calendarDateDisabled at hdis
      exact Nat.le_of_not_lt (by simpa using hdis)

/-- C9 (counterexample to the claim as stated): on day 5, the date 3 lies
in the past (the calendar would disable it), yet `handleAddScheduledStatus`
itself performs no past-date check: handed that date with a nonempty text
it inserts the override and surfaces no error. -/
theorem claim_C9_counterexample :
    calendarDateDisabled 5 3 = true
      ∧ handleAddScheduledStatus "e1" "t9" "n1" (some 3) "Sick" storeC9
        = (⟨[], [], [⟨"n1", "e1", "t9", 3, "Sick"⟩]⟩, none) := by
  refine ⟨by decide, by decide⟩

theorem claim_C9_witness :
    (handleAddScheduledStatus "e1" "t9" "n1" none "Sick" storeC9
        = (storeC9, some addScheduledError))
      ∧ (handleAddScheduledStatus "e1" "t9" "n1" (some 12) "Sick" storeC9
          = ({ storeC9 with scheduledStatuses := storeC9.scheduledStatuses
                ++ [⟨"n1", "e1", "t9", 12, jsTrim "Sick"⟩] }, none)
          ∧ 5 ≤ 12) :=
  ⟨(claim_C9_validation 5 storeC9 "e1" "t9" "n1" "Sick" none).1 (Or.inl rfl),
   (claim_C9_validation 5 storeC9 "e1" "t9" "n1" "Sick" (some 12)).2 12 rfl
     (by decide) (by decide)⟩
